import Mathlib

/-!
Verification of the hybrid search core of `backend/search_service.py`
(`QueryParser.parse`, `SearchService.hybrid_search`,
`process_natural_language_query`, `_generate_suggestions`,
`_rank_suggestions`, `_combine_results`).

Modelling conventions:
* Python strings are modelled as `String` / `List Char`; the byte-level
  operations used by the code (iteration, upper/lower casing, whitespace
  splitting, substring tests) are reproduced on `List Char`.
* Python float arithmetic on scores is modelled with exact rationals `ℚ`
  (the code only adds, divides and compares scores; the algorithmic
  content is independent of rounding).
* Python exceptions are modelled with `Except String`; an uncaught
  exception is an `.error` result.
* Python `sorted` is a stable sort by the given key; it is modelled with
  `List.insertionSort`, which is stable for a total relation, hence
  produces the same list.
* Python `dict` (insertion ordered) is modelled with association lists
  that update-in-place or append, mirroring CPython semantics.
-/

namespace SearchSpec

/-! ### Python string primitives on `List Char` -/

/-- Upper-case a character list (Python `str.upper`, ASCII range). -/
def upperL (l : List Char) : List Char := l.map Char.toUpper

/-- Lower-case a character list (Python `str.lower`, ASCII range). -/
def lowerL (l : List Char) : List Char := l.map Char.toLower

/-- `listHasPfx s p` : `p` starts `s` (Python `str.startswith`). -/
def listHasPfx : List Char → List Char → Bool
  | _, [] => true
  | [], _ :: _ => false
  | a :: s, b :: p => a = b && listHasPfx s p

/-- `listHasSub s p` : `p` occurs contiguously inside `s` (Python `in`). -/
def listHasSub : List Char → List Char → Bool
  | [], p => listHasPfx [] p
  | a :: s, p => listHasPfx (a :: s) p || listHasSub s p

/-- Python `str.split()` (no argument): split on whitespace runs, dropping
empty pieces; `cur` is the reversed current run. -/
def pySplitAux : List Char → List Char → List (List Char)
  | [], cur => if cur.isEmpty then [] else [cur.reverse]
  | c :: t, cur =>
    if c.isWhitespace then
      if cur.isEmpty then pySplitAux t [] else cur.reverse :: pySplitAux t []
    else pySplitAux t (c :: cur)

/-- Python `str.split()` on a character list. -/
def pySplitL (l : List Char) : List (List Char) := pySplitAux l []

/-! ### `QueryParser.parse` (search_service.py lines 32-91) -/

/-- Tokenizer state of `QueryParser.parse`: accumulated `tokens`, the
`current_token` being built, and the `in_quotes` flag. -/
structure TokSt where
  tokens : List (List Char)
  current : List Char
  inQuotes : Bool
  deriving Repr, DecidableEq

/-- One step of the character loop of `QueryParser.parse` (lines 52-63). -/
def tokStep (st : TokSt) (c : Char) : TokSt :=
  if c = '"' then
    if st.inQuotes then
      { tokens := st.tokens ++ [st.current], current := [], inQuotes := false }
    else
      { st with inQuotes := true }
  else if c.isWhitespace && !st.inQuotes then
    if st.current.isEmpty then st
    else { st with tokens := st.tokens ++ [st.current], current := [] }
  else
    { st with current := st.current ++ [c] }

/-- Tokenization phase of `QueryParser.parse` (lines 47-66): fold the
character loop, then flush a nonempty `current_token`. -/
def tokenizeL (q : List Char) : List (List Char) :=
  let st := q.foldl tokStep { tokens := [], current := [], inQuotes := false }
  if st.current.isEmpty then st.tokens else st.tokens ++ [st.current]

/-- The keys of `operator_map` (`AND`, `OR`, `NOT`). -/
def opNames : List (List Char) := [['A', 'N', 'D'], ['O', 'R'], ['N', 'O', 'T']]

/-- `upper_token in self.operator_map` — operator test on one token. -/
def isOpTok (t : List Char) : Bool := opNames.contains (upperL t)

/-- Python list indexing `l[i]` with negative indices counting from the
end; an out-of-range access (`IndexError`) is `none`. -/
def pyGet (l : List (List Char)) (i : Int) : Option (List Char) :=
  if i < 0 then
    if -i ≤ (l.length : Int) then l.get? (l.length - (-i).toNat) else none
  else
    l.get? i.toNat

/-- The `ValueError` message produced when the loop hits an `IndexError`
(`str(IndexError)` is `list index out of range`, wrapped by line 91). -/
def idxErr : String := "Invalid query syntax: list index out of range"

/-- The token-processing loop of `QueryParser.parse` (lines 69-89).  The
loop position `i` is carried together with the still-unprocessed suffix
`rest = tokens.drop i`, so `tokens[i+1]` exists exactly when `rest` has a
second element.  An `IndexError` from `tokens[i+1]` is caught by the
surrounding `except` and re-raised as a `ValueError` (`idxErr`). -/
def processToksA (tokens : List (List Char)) :
    List (List Char) → List (List Char) → Nat → Except String (List (List Char))
  | parsed, [], _ => .ok parsed
  | parsed, token :: rest, i =>
    let upTok := upperL token
    if upTok = ['N', 'O', 'T'] then
      match rest with
      | [] => .error idxErr
      | nxt :: rest2 => processToksA tokens (parsed ++ [['N', 'O', 'T', ' '] ++ nxt]) rest2 (i + 2)
    else if upTok = ['A', 'N', 'D'] || upTok = ['O', 'R'] then
      let opName := if upTok = ['A', 'N', 'D'] then ['A', 'N', 'D'] else ['O', 'R']
      let leftRest : Option (List Char × List (List Char)) :=
        match parsed.getLast? with
        | some l => some (l, parsed.dropLast)
        | none => (pyGet tokens ((i : Int) - 1)).map (fun t => (t, []))
      match leftRest with
      | none => .error idxErr
      | some (left, parsedRest) =>
        match rest with
        | [] => .error idxErr
        | right :: rest2 =>
          processToksA tokens
            (parsedRest ++ [['('] ++ left ++ [' '] ++ opName ++ [' '] ++ right ++ [')']])
            rest2 (i + 2)
    else
      processToksA tokens (parsed ++ [token]) rest (i + 1)

/-- The whole token-processing phase, started at position 0. -/
def processToks (tokens : List (List Char)) : Except String (List (List Char)) :=
  processToksA tokens [] tokens 0

/-- Python `' '.join(parsed)`. -/
def joinSpace : List (List Char) → List Char
  | [] => []
  | [t] => t
  | t :: ts => t ++ [' '] ++ joinSpace ts

/-- `QueryParser.parse` on character lists: the line-43 pass-through is a
*substring* test of `AND`/`OR`/`NOT` against the upper-cased query. -/
def parseL (q : List Char) : Except String (List Char × Bool) :=
  let up := upperL q
  if !(opNames.any (fun op => listHasSub up op)) then
    .ok (q, false)
  else
    match processToks (tokenizeL q) with
    | .ok parsed => .ok (joinSpace parsed, true)
    | .error e => .error e

/-- `QueryParser.parse` (lines 32-91) on `String`. -/
def parse (q : String) : Except String (String × Bool) :=
  (parseL q.toList).map (fun r => (String.mk r.1, r.2))

/-- Number of double-quote characters in a query. -/
def countQuote (q : String) : Nat := q.toList.count '"'

/-! ### `_combine_results` (search_service.py lines 503-530) -/

/-- A document dict as indexed by both backends: its `id` key plus the
remaining payload fields (opaque to the fusion logic). -/
structure Doc where
  id : Nat
  payload : Nat
  deriving Repr, DecidableEq

/-- A Qdrant search result object: the document dict is its `payload`. -/
structure QdrantHit where
  payload : Doc
  deriving Repr, DecidableEq

/-- The id keys of a document list (association-list view of a dict). -/
def idsOf (l : List Doc) : List Nat := l.map (fun d => d.id)

/-- One `scores[id] = scores.get(id, 0) + (1 - idx/len(results))` update
(lines 509-514); `n` is the length of the list being enumerated.  Scores
are modelled in `ℚ`. -/
def bump (n : Nat) (g : Nat → ℚ) (p : Nat × Nat) : Nat → ℚ :=
  Function.update g p.2 (g p.2 + (1 - (p.1 : ℚ) / (n : ℚ)))

/-- One `for idx, result in enumerate(results)` scoring loop over the id
column of a result list. -/
def addListScores (f : Nat → ℚ) (ids : List Nat) : Nat → ℚ :=
  ids.enum.foldl (bump ids.length) f

/-- The complete score dict of `_combine_results`: the keyword loop, then
the vector loop, starting from the empty dict (`scores.get(id, 0)`
defaults a missing key to 0). -/
def combineScores (kIds vIds : List Nat) : Nat → ℚ :=
  addListScores (addListScores (fun _ => 0) kIds) vIds

/-- CPython dict assignment `all_docs[doc.id] = doc` on an
insertion-ordered association list keyed by `id`: an existing key keeps
its position and gets the new value, a new key is appended. -/
def insertDoc (acc : List Doc) (d : Doc) : List Doc :=
  if d.id ∈ idsOf acc then acc.map (fun x => if x.id = d.id then d else x)
  else acc ++ [d]

/-- `all_docs = {doc['id']: doc for doc in keyword_results}` (line 517). -/
def buildDict (ks : List Doc) : List Doc := ks.foldl insertDoc []

/-- Lines 518-521: a vector payload is added only when its id is not yet
a key of `all_docs`. -/
def addIfAbsent (acc : List Doc) (d : Doc) : List Doc :=
  if d.id ∈ idsOf acc then acc else acc ++ [d]

/-- The full insertion-ordered `all_docs` dict of `_combine_results`. -/
def allDocs (ks : List Doc) (vs : List QdrantHit) : List Doc :=
  (vs.map (fun r => r.payload)).foldl addIfAbsent (buildDict ks)

/-- The sort key of line 526: `scores.get(x['id'], 0)` of a document. -/
def docScore (ks : List Doc) (vs : List QdrantHit) (d : Doc) : ℚ :=
  combineScores (ks.map (fun r => r.id)) (vs.map (fun r => r.payload.id)) d.id

/-- Descending comparison by a rational key: `x` sorts no later than `y`.
This is the comparator realized by `sorted(..., key=..., reverse=True)`. -/
def fGe {α : Type} (f : α → ℚ) (x y : α) : Prop := f y ≤ f x

instance decFGe {α : Type} (f : α → ℚ) : DecidableRel (fGe f) :=
  fun x y => inferInstanceAs (Decidable (f y ≤ f x))

/-- `_combine_results` (lines 503-530): build the fused score dict and
the `all_docs` dict, then sort the values by descending fused score.
Python `sorted(..., key=..., reverse=True)` is a stable sort, which is
exactly `List.insertionSort` with the total relation `fGe`. -/
def combine_results (keyword_results : List Doc) (vector_results : List QdrantHit) : List Doc :=
  List.insertionSort (fGe (docScore keyword_results vector_results))
    (allDocs keyword_results vector_results)

/-- The pairwise order produced by a stable descending sort whose input
was pairwise `K`-ordered: strictly larger score first, ties in `K`
order. -/
def stableOrd {α : Type} (f : α → ℚ) (K : α → α → Prop) (x y : α) : Prop :=
  f y < f x ∨ (f x = f y ∧ K x y)

instance decStableOrd {α : Type} (f : α → ℚ) (K : α → α → Prop) [DecidableRel K] :
    DecidableRel (stableOrd f K) := fun x y => by
  unfold stableOrd
  infer_instance

/-- 0-based rank of a document id in a backend result list (`none` when
absent); this is the `r` of the spec's `1 - r/N` contribution. -/
def rankIn : List Nat → Nat → Option Nat
  | [], _ => none
  | a :: t, d => if a = d then some 0 else (rankIn t d).map (fun r => r + 1)

/-- The contribution `1 - r/N` of one list to a fused score (0 when the
document is absent from the list). -/
def optContrib : Option Nat → Nat → ℚ
  | some r, n => 1 - (r : ℚ) / (n : ℚ)
  | none, _ => 0

/-- Order on optional backend ranks with `none` as plus infinity. -/
def optLt : Option Nat → Option Nat → Prop
  | some a, some b => a < b
  | some _, none => True
  | none, _ => False

instance decOptLt : ∀ a b : Option Nat, Decidable (optLt a b)
  | some a, some b => inferInstanceAs (Decidable (a < b))
  | some _, none => inferInstanceAs (Decidable True)
  | none, some _ => inferInstanceAs (Decidable False)
  | none, none => inferInstanceAs (Decidable False)

/-- The deterministic tie-break order claimed by the spec: lexical rank
(absent treated as plus infinity), then vector rank (same), then
document id ascending. -/
def keyLt (kIds vIds : List Nat) (x y : Doc) : Prop :=
  optLt (rankIn kIds x.id) (rankIn kIds y.id) ∨
    (rankIn kIds x.id = rankIn kIds y.id ∧
      (optLt (rankIn vIds x.id) (rankIn vIds y.id) ∨
        (rankIn vIds x.id = rankIn vIds y.id ∧ x.id < y.id)))

instance decKeyLt (kIds vIds : List Nat) : DecidableRel (keyLt kIds vIds) := fun x y => by
  unfold keyLt
  infer_instance

/-- The subsequence of `ds` whose ids avoid `seen`, keeping first
occurrences (the documents the lines 518-521 loop appends to an existing
dict with keys `seen`). -/
def dedupKeys (seen : List Nat) : List Doc → List Doc
  | [] => []
  | d :: t => if d.id ∈ seen then dedupKeys seen t else d :: dedupKeys (seen ++ [d.id]) t

/-! ### Basic facts about the parser -/

theorem mk_toList (s : String) : String.mk s.toList = s := rfl

/-- The quoted-span fold: inside quotes every non-quote character is
appended to `current_token`. -/
theorem foldl_tokStep_inQuotes (s : List Char) (hq : '"' ∉ s) :
    ∀ tk cur, s.foldl tokStep { tokens := tk, current := cur, inQuotes := true } =
      { tokens := tk, current := cur ++ s, inQuotes := true } := by
  induction s with
  | nil => intro tk cur; simp
  | cons c t ih =>
    intro tk cur
    have hc : c ≠ '"' := by intro h; exact hq (h ▸ List.mem_cons_self c t)
    have ht : '"' ∉ t := fun h => hq (List.mem_cons_of_mem c h)
    simp only [List.foldl_cons, tokStep, if_neg hc]
    have : (c.isWhitespace && !true) = false := by simp
    simp only [this, Bool.false_eq_true, if_false]
    rw [ih ht]
    simp

/-! ### `process_natural_language_query` (lines 352-418)

The `patterns` dict applies five regex rewrites in order.  Each is
hand-translated: matching is case-insensitive (`re.I`), modelled by
matching on the lower-cased text while replacement groups keep the
original text (group capture is positional); the dot of `(.*)` is
modelled as matching any character (single-line queries, the standard
`re` caveat about newlines aside). -/

/-- Python `str.strip()`. -/
def trimL (l : List Char) : List Char :=
  (((l.dropWhile Char.isWhitespace).reverse).dropWhile Char.isWhitespace).reverse

/-- Characters matched before group 2 of the command-word pattern
`(find|show|get|search for) me? (.*)` anchored at the start (the
lower-cased query is scanned; `me?` is literal `m` with optional `e`,
greedy with backtracking); `none` when the pattern does not match. -/
def pat1Consumed (low : List Char) : Option Nat :=
  (["find".toList, "show".toList, "get".toList, "search for".toList].filterMap
    (fun w =>
      if listHasPfx low w then
        match low.drop w.length with
        | ' ' :: 'm' :: 'e' :: ' ' :: _ => some (w.length + 4)
        | ' ' :: 'm' :: ' ' :: _ => some (w.length + 3)
        | _ => none
      else none)).head?

/-- Pattern 1 (line 371): strip command words, keep group 2, strip. -/
def pat1 (q : List Char) : List Char :=
  match pat1Consumed (lowerL q) with
  | some n => trimL (q.drop n)
  | none => q

/-- Largest index at which one of `seps` begins in `low`: the greedy
split point chosen by a leading `(.*)` group (`none` when no separator
occurs anywhere, i.e. the pattern does not match). -/
def lastSepIdx (low : List Char) (seps : List (List Char)) : Option Nat :=
  ((List.range (low.length + 1)).filter
    (fun i => seps.any (fun sp => listHasPfx (low.drop i) sp))).max?

/-- Pattern 2 (line 372): drop a trailing location reference, keep
group 1, strip. -/
def pat2 (q : List Char) : List Char :=
  match lastSepIdx (lowerL q) [" from ".toList, " in ".toList] with
  | some i => trimL (q.take i)
  | none => q

/-- Pattern 3 (line 373): drop a trailing date reference, keep group 1,
strip. -/
def pat3 (q : List Char) : List Char :=
  match lastSepIdx (lowerL q)
      [" created before ".toList, " created after ".toList, " created on ".toList,
        " modified before ".toList, " modified after ".toList, " modified on ".toList] with
  | some i => trimL (q.take i)
  | none => q

/-- Pattern 4 (line 374): `compare X and Y` becomes `X OR Y`, strip. -/
def pat4 (q : List Char) : List Char :=
  if listHasPfx (lowerL q) "compare ".toList then
    match lastSepIdx (lowerL (q.drop 8)) [" and ".toList] with
    | some j => trimL ((q.drop 8).take j ++ " OR ".toList ++ (q.drop 8).drop (j + 5))
    | none => q
  else q

/-- Pattern 5 (line 375): strip a `what is` question head, strip. -/
def pat5 (q : List Char) : List Char :=
  if listHasPfx (lowerL q) "what is ".toList then trimL (q.drop 8) else q

/-- The ordered pattern pass of lines 370-381. -/
def patternPass (q : List Char) : List Char := pat5 (pat4 (pat3 (pat2 (pat1 q))))

/-- A word character for the regex word boundary (ASCII view). -/
def isWordChar (c : Char) : Bool := c.isAlphanum || c = '_'

/-- `re.search` of a word-bounded, case-insensitive alternation. -/
def hasWord (low : List Char) (ws : List (List Char)) : Bool :=
  (List.range (low.length + 1)).any (fun i =>
    ws.any (fun w =>
      listHasPfx (low.drop i) w &&
        (decide (i = 0) || !isWordChar (low.getD (i - 1) ' ')) &&
        (decide (low.length ≤ i + w.length) || !isWordChar (low.getD (i + w.length) ' '))))

/-- The intent classes of lines 383-390. -/
inductive Intent
  | comparison
  | filter
  | informational
  | general
  deriving Repr, DecidableEq

/-- Intent classification on the post-pattern text (lines 384-390). -/
def intentOf (q : List Char) : Intent :=
  let low := lowerL q
  if hasWord low ["compare".toList, "difference".toList, "similar".toList] then .comparison
  else if hasWord low ["filter".toList, "only".toList, "just".toList] then .filter
  else if hasWord low ["what".toList, "how".toList, "why".toList] then .informational
  else .general

/-- Intent-specific wrapping of the final query (lines 408-412). -/
def wrapIntent : Intent → List Char → List Char
  | .comparison, q => ['('] ++ q ++ [')']
  | .filter, q => ['+'] ++ q
  | .informational, q => q
  | .general, q => q

/-- `process_natural_language_query` (lines 352-418).  The external
text2text pipeline is the parameter `nlp`, returning the generated text
or raising.  The model runs only for more than 3 post-pattern tokens
(line 393); empty or over-500-character output, and a raising model, all
restore `original_query` (lines 402-406); intent wrapping follows.  The
function is total: the pure string body cannot raise, so the outer
handler of line 416 is unreachable. -/
def process_natural_language_query (nlp : List Char → Except String (List Char))
    (query : List Char) : List Char :=
  let original_query := query
  let q1 := patternPass query
  let intent := intentOf q1
  let q2 :=
    if 3 < (pySplitL q1).length then
      match nlp ("convert to search query: ".toList ++ q1) with
      | .ok g => if g.isEmpty || 500 < g.length then original_query else g
      | .error _ => original_query
    else q1
  wrapIntent intent q2

/-! ### `hybrid_search` (lines 236-350) -/

/-- The response dict of lines 344-350, restricted to the fields the
claims are about: the fused `hits` and the `nlp_processed` flag.  Facets
are a passthrough of the meili response and suggestions come from
`_generate_suggestions`, which catches all its own failures
(lines 464-466). -/
structure SearchResponse where
  hits : List Doc
  nlp_processed : Bool
  deriving Repr, DecidableEq

/-- Truthiness of `if user_id:` for an `Optional[int]`: `None` and `0`
are falsy. -/
def userTruthy : Option Int → Bool
  | none => false
  | some u => u != 0

/-- `hybrid_search` (lines 236-350).  External collaborators are
parameters: `nlp` (the rewrite pipeline), `meili` (keyword search of the
final query string, with the caller filters/facets/limit folded in),
`embed` (query embedding), `qdrant` (vector search), `histWrite` (the
history insert and commit of lines 334-342, reached only under
`if user_id:`).  No step is guarded by a handler, so any exception
propagates as `.error`; parse errors are re-raised wrapped
(lines 284-295). -/
def hybrid_search (query : String) (limit : Nat) (user_id : Option Int) (use_nlp : Bool)
    (nlp : List Char → Except String (List Char))
    (meili : String → Except String (List Doc))
    (embed : String → Except String Unit)
    (qdrant : Except String (List QdrantHit))
    (histWrite : Except String Unit) :
    Except String SearchResponse :=
  let qn : String × Bool :=
    if use_nlp then
      let processed := String.mk (process_natural_language_query nlp query.toList)
      if processed ≠ query then (processed, true) else (query, false)
    else (query, false)
  (match parse qn.1 with
    | .ok (pq, _) => Except.ok pq
    | .error e =>
      if qn.2 then
        match parse query with
        | .ok (pq, _) => Except.ok pq
        | .error _ => Except.error ("Invalid search query: " ++ e)
      else Except.error ("Invalid search query: " ++ e)) >>= fun query2 =>
  meili query2 >>= fun meili_results =>
  embed query2 >>= fun _ =>
  qdrant >>= fun qdrant_results =>
  let combined := combine_results meili_results qdrant_results
  (if userTruthy user_id then histWrite else Except.ok ()) >>= fun _ =>
  Except.ok { hits := combined.take limit, nlp_processed := qn.2 }

/-! ### `_generate_suggestions` / `_rank_suggestions` (lines 420-501) -/

/-- The mutable suggestion state of the service (lines 122-123):
`suggestion_cache` is an insertion-ordered dict from cache key to
suggestion list, `popular_terms` a counter dict from term to count. -/
structure SuggestState where
  suggestion_cache : List (String × List String)
  popular_terms : List (String × Nat)
  deriving Repr, DecidableEq

/-- The state right after `SearchService.__init__`: both dicts empty. -/
def initState : SuggestState := { suggestion_cache := [], popular_terms := [] }

/-- `self.popular_terms.get(term, 0)` — a pure dict read (`.get` on a
defaultdict does not insert). -/
def popGet (m : List (String × Nat)) (k : String) : Nat :=
  match m.lookup k with
  | some v => v
  | none => 0

/-- Python `set.add` modelled as deduplicating insertion (CPython set
iteration order is implementation defined; the claims do not depend on
it). -/
def setAdd (s : List String) (x : String) : List String :=
  if x ∈ s then s else s ++ [x]

/-- The candidate set of `_rank_suggestions` (lines 470-481): backend
titles and history terms whose lower-cased text starts with the
lower-cased query. -/
def suggCandidates (meili_titles history_terms : List String) (query : String) : List String :=
  let s1 := meili_titles.foldl
    (fun s title =>
      if listHasPfx (lowerL title.toList) (lowerL query.toList) then setAdd s title else s) []
  history_terms.foldl
    (fun s term =>
      if listHasPfx (lowerL term.toList) (lowerL query.toList) then setAdd s term else s) s1

/-- The score of one candidate (lines 485-498): +2 for a prefix match,
+0.1 per popularity count, +0.05 per character under 10 (`0.1` and
`0.05` as exact rationals). -/
def suggScore (popular_terms : List (String × Nat)) (query suggestion : String) : ℚ :=
  (if listHasPfx (lowerL suggestion.toList) (lowerL query.toList) then (0 : ℚ) + 2 else 0) +
    (popGet popular_terms (String.mk (lowerL suggestion.toList)) : ℚ) * (1 / 10) +
    ((max 0 (10 - (suggestion.length : Int)) : Int) : ℚ) * (1 / 20)

/-- The scored candidate list of lines 484-498. -/
def rankScored (popular_terms : List (String × Nat)) (meili_titles history_terms : List String)
    (query : String) : List (ℚ × String) :=
  (suggCandidates meili_titles history_terms query).map
    (fun s => (suggScore popular_terms query s, s))

/-- `_rank_suggestions` (lines 468-501): scored candidates, stably sorted
by `-score` ascending (line 501), then the terms alone. -/
def rank_suggestions (popular_terms : List (String × Nat))
    (meili_titles history_terms : List String) (query : String) : List String :=
  (List.insertionSort (fGe (fun p : ℚ × String => p.1))
    (rankScored popular_terms meili_titles history_terms query)).map (fun p => p.2)

/-- The cache key of line 426: `user or global`, colon, lower-cased
query. -/
def cacheKey (user_id : Option Int) (query : String) : String :=
  (match user_id with
    | some u => if u != 0 then toString u else "global"
    | none => "global") ++ ":" ++ String.mk (lowerL query.toList)

/-- Dict write `self.suggestion_cache[cache_key] = suggestions`. -/
def cacheInsert (c : List (String × List String)) (k : String) (v : List String) :
    List (String × List String) :=
  if (c.map (fun p => p.1)).contains k then
    c.map (fun p => if p.1 = k then (k, v) else p)
  else c ++ [(k, v)]

/-- `_generate_suggestions` (lines 420-466) as a state transformer.  The
external reads (title fetch, history query — the latter only under
`if user_id:`) are parameters; any of their failures is caught by the
lines 464-466 handler, returning `[]` with no cache write.  The only
state effect is the cache write; `popular_terms` is read only (inside
`_rank_suggestions`). -/
def generate_suggestions (st : SuggestState) (query : String) (user_id : Option Int)
    (meili_titles : Except String (List String))
    (history_terms : Except String (List String)) :
    List String × SuggestState :=
  if query.length < 2 then ([], st)
  else
    match (st.suggestion_cache).lookup (cacheKey user_id query) with
    | some v => (v.take 8, st)
    | none =>
      match meili_titles with
      | .error _ => ([], st)
      | .ok titles =>
        match (match user_id with
          | some u => if u != 0 then history_terms else .ok []
          | none => .ok []) with
        | .error _ => ([], st)
        | .ok hist =>
          let sugg := rank_suggestions st.popular_terms titles hist query
          (sugg.take 8,
            { st with
              suggestion_cache := cacheInsert st.suggestion_cache (cacheKey user_id query) sugg })

/-- Suggestion states reachable from `__init__`.  `_generate_suggestions`
is the only operation in the module that writes any of this state
(`hybrid_search` touches it only through that call); no code path writes
`popular_terms`. -/
inductive Reachable : SuggestState → Prop
  | init : Reachable initState
  | step (st : SuggestState) (query : String) (user_id : Option Int)
      (mt ht : Except String (List String)) (h : Reachable st) :
      Reachable (generate_suggestions st query user_id mt ht).2

/-! ### Score-dict characterization -/

/-- Value of a score-dict fold at one key: the accumulated contributions
of the enumerated pairs whose id equals that key. -/
theorem bumpFold_apply (n : Nat) (ps : List (Nat × Nat)) (f : Nat → ℚ) (d : Nat) :
    (ps.foldl (bump n) f) d =
      f d + ((ps.filter (fun p => p.2 = d)).map (fun p => 1 - (p.1 : ℚ) / (n : ℚ))).sum := by
  induction ps generalizing f with
  | nil => simp
  | cons p t ih =>
    rw [List.foldl_cons, ih, List.filter_cons]
    by_cases h : p.2 = d
    · subst h
      rw [if_pos (by simp)]
      have hb : (bump n f p) p.2 = f p.2 + (1 - (p.1 : ℚ) / (n : ℚ)) := by
        unfold bump
        rw [Function.update_apply, if_pos rfl]
      rw [hb, List.map_cons, List.sum_cons]
      ring
    · rw [if_neg (by simpa using h)]
      have hb : (bump n f p) d = f d := by
        unfold bump
        rw [Function.update_apply, if_neg (fun he => h he.symm)]
      rw [hb]

/-- A document id is absent from a list exactly when its rank is `none`. -/
theorem rankIn_eq_none (ids : List Nat) (d : Nat) : rankIn ids d = none ↔ d ∉ ids := by
  induction ids with
  | nil => simp [rankIn]
  | cons a t ih =>
    by_cases h : a = d
    · simp [rankIn, h]
    · have hne : ¬ d = a := fun he => h he.symm
      simp [rankIn, if_neg h, Option.map_eq_none', ih, List.mem_cons, hne]

/-- With pairwise-distinct ids, the enumerated pairs matching a key are
exactly the key at its rank. -/
theorem enumFrom_filter_eq (ids : List Nat) (d : Nat) (hnd : ids.Nodup) :
    ∀ k, ((ids.enumFrom k).filter (fun p => p.2 = d)) =
      (match rankIn ids d with
      | some r => [(k + r, d)]
      | none => []) := by
  induction ids with
  | nil => intro k; simp [rankIn]
  | cons a t ih =>
    intro k
    have hnd2 := List.nodup_cons.mp hnd
    rw [List.enumFrom_cons, List.filter_cons]
    by_cases h : a = d
    · subst h
      have hdt : a ∉ t := hnd2.1
      have hnone : rankIn t a = none := (rankIn_eq_none t a).mpr hdt
      rw [if_pos (by simp), ih hnd2.2 (k + 1), hnone]
      simp [rankIn]
    · rw [if_neg (by simpa using h), ih hnd2.2 (k + 1)]
      simp only [rankIn, if_neg h]
      cases hr : rankIn t d with
      | none => simp
      | some r =>
        simp only [Option.map_some']
        have he : k + 1 + r = k + (r + 1) := by omega
        rw [he]

/-- One scoring loop adds exactly the `1 - rank/length` contribution at
every key (for a duplicate-free id column). -/
theorem addListScores_apply (f : Nat → ℚ) (ids : List Nat) (d : Nat) (hnd : ids.Nodup) :
    addListScores f ids d = f d + optContrib (rankIn ids d) ids.length := by
  unfold addListScores
  rw [show ids.enum = ids.enumFrom 0 from rfl, bumpFold_apply, enumFrom_filter_eq ids d hnd 0]
  cases h : rankIn ids d with
  | none => simp [optContrib]
  | some r => simp [optContrib]

/-- The fused score of any document id is the sum of its two per-list
contributions. -/
theorem combineScores_apply (kIds vIds : List Nat) (d : Nat)
    (hk : kIds.Nodup) (hv : vIds.Nodup) :
    combineScores kIds vIds d =
      optContrib (rankIn kIds d) kIds.length + optContrib (rankIn vIds d) vIds.length := by
  unfold combineScores
  rw [addListScores_apply _ _ _ hv, addListScores_apply _ _ _ hk]
  ring

/-- A single list contributes at most 1. -/
theorem optContrib_le_one (o : Option Nat) (n : Nat) : optContrib o n ≤ 1 := by
  cases o with
  | none => simp [optContrib]
  | some r =>
    simp only [optContrib]
    have h : (0 : ℚ) ≤ (r : ℚ) / (n : ℚ) := by positivity
    linarith

/-- C2: for duplicate-free backend hit lists, every document's fused
score is the sum, over the lists containing it, of `1 - r/N` (`r` its
0-based rank, `N` that list's length); an empty list contributes nothing
(no division by zero) and fusing two empty lists yields the empty list;
and a document at rank 0 of both lists scores exactly 2, the maximum
possible for that call. -/
theorem C2_thm (ks : List Doc) (vs : List QdrantHit)
    (hk : (ks.map (fun r => r.id)).Nodup) (hv : (vs.map (fun r => r.payload.id)).Nodup) :
    (∀ d, combineScores (ks.map (fun r => r.id)) (vs.map (fun r => r.payload.id)) d =
        optContrib (rankIn (ks.map (fun r => r.id)) d) ks.length +
          optContrib (rankIn (vs.map (fun r => r.payload.id)) d) vs.length) ∧
      combine_results [] [] = [] ∧
      (∀ d, rankIn (ks.map (fun r => r.id)) d = some 0 →
        rankIn (vs.map (fun r => r.payload.id)) d = some 0 →
        combineScores (ks.map (fun r => r.id)) (vs.map (fun r => r.payload.id)) d = 2) ∧
      (∀ d, combineScores (ks.map (fun r => r.id)) (vs.map (fun r => r.payload.id)) d ≤ 2) := by
  have hform := fun d => combineScores_apply _ _ d hk hv
  refine ⟨?_, rfl, ?_, ?_⟩
  · intro d
    rw [hform d, List.length_map, List.length_map]
  · intro d h1 h2
    rw [hform d, h1, h2]
    simp [optContrib]
    norm_num
  · intro d
    rw [hform d]
    have h1 := optContrib_le_one (rankIn (ks.map fun r => r.id) d) (ks.map fun r => r.id).length
    have h2 := optContrib_le_one (rankIn (vs.map fun r => r.payload.id) d)
      (vs.map fun r => r.payload.id).length
    linarith

/-- C2 witness: the spec's worked example — lexical ids [1, 2] and vector
ids [2, 3]; document 2 receives both contributions. -/
theorem C2_witness :
    combineScores [1, 2] [2, 3] 2 =
      optContrib (rankIn [1, 2] 2) 2 + optContrib (rankIn [2, 3] 2) 2 :=
  (C2_thm [⟨1, 0⟩, ⟨2, 0⟩] [⟨⟨2, 0⟩⟩, ⟨⟨3, 0⟩⟩] (by decide) (by decide)).1 2

/-! ### The `all_docs` dict: keys, order, deduplication -/

theorem idsOf_append (a b : List Doc) : idsOf (a ++ b) = idsOf a ++ idsOf b := by
  simp [idsOf]

/-- Dict assignment preserves duplicate-free keys. -/
theorem idsOf_insertDoc (acc : List Doc) (d : Doc) (h : (idsOf acc).Nodup) :
    (idsOf (insertDoc acc d)).Nodup := by
  unfold insertDoc
  by_cases hm : d.id ∈ idsOf acc
  · rw [if_pos hm]
    have he : idsOf (acc.map (fun x => if x.id = d.id then d else x)) = idsOf acc := by
      unfold idsOf
      rw [List.map_map]
      refine List.map_congr_left ?_
      intro x _
      by_cases hxe : x.id = d.id
      · simp [Function.comp, hxe]
      · simp [Function.comp, hxe]
    rw [he]
    exact h
  · rw [if_neg hm, idsOf_append]
    simp [List.nodup_append, idsOf]
    exact ⟨h, fun x hx he => hm (he ▸ List.mem_map_of_mem _ hx)⟩

theorem foldl_insertDoc_nodup (ks : List Doc) :
    ∀ acc, (idsOf acc).Nodup → (idsOf (ks.foldl insertDoc acc)).Nodup := by
  induction ks with
  | nil => intro acc h; simpa using h
  | cons d t ih =>
    intro acc h
    rw [List.foldl_cons]
    exact ih _ (idsOf_insertDoc acc d h)

theorem buildDict_nodup (ks : List Doc) : (idsOf (buildDict ks)).Nodup :=
  foldl_insertDoc_nodup ks [] (by simp [idsOf])

theorem idsOf_addIfAbsent (acc : List Doc) (d : Doc) (h : (idsOf acc).Nodup) :
    (idsOf (addIfAbsent acc d)).Nodup := by
  unfold addIfAbsent
  by_cases hm : d.id ∈ idsOf acc
  · rw [if_pos hm]
    exact h
  · rw [if_neg hm, idsOf_append]
    simp [List.nodup_append, idsOf]
    exact ⟨h, fun x hx he => hm (he ▸ List.mem_map_of_mem _ hx)⟩

theorem foldl_addIfAbsent_nodup (ds : List Doc) :
    ∀ acc, (idsOf acc).Nodup → (idsOf (ds.foldl addIfAbsent acc)).Nodup := by
  induction ds with
  | nil => intro acc h; simpa using h
  | cons d t ih =>
    intro acc h
    rw [List.foldl_cons]
    exact ih _ (idsOf_addIfAbsent acc d h)

/-- `all_docs` always has duplicate-free keys (dict semantics). -/
theorem allDocs_nodup (ks : List Doc) (vs : List QdrantHit) : (idsOf (allDocs ks vs)).Nodup :=
  foldl_addIfAbsent_nodup _ _ (buildDict_nodup ks)

/-- The fused list is a permutation of the `all_docs` values. -/
theorem combine_results_perm (ks : List Doc) (vs : List QdrantHit) :
    (combine_results ks vs).Perm (allDocs ks vs) :=
  List.perm_insertionSort _ _

/-- C4 core: the fused list never contains two entries with one id. -/
theorem combine_results_ids_nodup (ks : List Doc) (vs : List QdrantHit) :
    (idsOf (combine_results ks vs)).Nodup := by
  have h := allDocs_nodup ks vs
  unfold idsOf at h ⊢
  exact (((combine_results_perm ks vs).map (fun d => d.id)).nodup_iff).mpr h

/-- With duplicate-free keys the keyword dict comprehension is the
keyword list itself. -/
theorem buildDict_eq_self (ks : List Doc) (h : (idsOf ks).Nodup) : buildDict ks = ks := by
  suffices H : ∀ (l acc : List Doc), (idsOf (acc ++ l)).Nodup → l.foldl insertDoc acc = acc ++ l by
    simpa using H ks [] (by simpa using h)
  intro l
  induction l with
  | nil => intro acc _; simp
  | cons d t ih =>
    intro acc hnd
    have hd : d.id ∉ idsOf acc := by
      rw [idsOf_append] at hnd
      intro hmem
      rcases (List.nodup_append.mp hnd) with ⟨_, _, hdisj⟩
      exact hdisj hmem (by simp [idsOf])
    rw [List.foldl_cons, insertDoc, if_neg hd]
    have hnd2 : (idsOf ((acc ++ [d]) ++ t)).Nodup := by
      have : (acc ++ [d]) ++ t = acc ++ d :: t := by simp
      rw [this]
      exact hnd
    rw [ih (acc ++ [d]) hnd2]
    simp

/-- The vector loop appends exactly the first occurrences of the ids not
already present. -/
theorem foldl_addIfAbsent_eq (ds : List Doc) :
    ∀ acc, ds.foldl addIfAbsent acc = acc ++ dedupKeys (idsOf acc) ds := by
  induction ds with
  | nil => intro acc; simp [dedupKeys]
  | cons d t ih =>
    intro acc
    rw [List.foldl_cons, addIfAbsent, dedupKeys]
    by_cases h : d.id ∈ idsOf acc
    · rw [if_pos h, if_pos h, ih acc]
    · rw [if_neg h, if_neg h, ih (acc ++ [d]), idsOf_append]
      simp [idsOf]

/-- Shape of `all_docs` for duplicate-free keyword keys: keyword hits in
order, then vector-only payloads in order. -/
theorem allDocs_eq (ks : List Doc) (vs : List QdrantHit) (hk : (idsOf ks).Nodup) :
    allDocs ks vs = ks ++ dedupKeys (idsOf ks) (vs.map (fun r => r.payload)) := by
  unfold allDocs
  rw [buildDict_eq_self ks hk, foldl_addIfAbsent_eq]

theorem dedupKeys_sublist (ds : List Doc) : ∀ seen, (dedupKeys seen ds).Sublist ds := by
  induction ds with
  | nil => intro seen; simp [dedupKeys]
  | cons d t ih =>
    intro seen
    rw [dedupKeys]
    by_cases h : d.id ∈ seen
    · rw [if_pos h]
      exact (ih seen).trans (List.sublist_cons_self d t)
    · rw [if_neg h]
      exact List.Sublist.cons₂ d (ih _)

theorem mem_dedupKeys {x : Doc} (seen : List Nat) (ds : List Doc) :
    x ∈ dedupKeys seen ds → x ∈ ds ∧ x.id ∉ seen := by
  induction ds generalizing seen with
  | nil => intro hx; simp [dedupKeys] at hx
  | cons d t ih =>
    intro hx
    rw [dedupKeys] at hx
    by_cases h : d.id ∈ seen
    · rw [if_pos h] at hx
      obtain ⟨h1, h2⟩ := ih seen hx
      exact ⟨List.mem_cons_of_mem d h1, h2⟩
    · rw [if_neg h] at hx
      rcases List.mem_cons.mp hx with rfl | hx2
      · exact ⟨List.mem_cons_self _ _, h⟩
      · obtain ⟨h1, h2⟩ := ih _ hx2
        exact ⟨List.mem_cons_of_mem d h1, fun hs => h2 (List.mem_append_left _ hs)⟩

/-! ### Tie-break order of the fused list -/

/-- In a duplicate-free id column, the document at position `i` has rank
`some i`. -/
theorem rankIn_idsOf_get (ds : List Doc) (h : (idsOf ds).Nodup) :
    ∀ (i : Nat) (hi : i < ds.length), rankIn (idsOf ds) (ds.get ⟨i, hi⟩).id = some i := by
  induction ds with
  | nil => intro i hi; exact absurd hi (by simp)
  | cons d t ih =>
    have h2 : (idsOf t).Nodup ∧ d.id ∉ idsOf t := by
      have he : idsOf (d :: t) = d.id :: idsOf t := rfl
      rw [he] at h
      exact ⟨(List.nodup_cons.mp h).2, (List.nodup_cons.mp h).1⟩
    intro i hi
    cases i with
    | zero => simp [idsOf, rankIn]
    | succ j =>
      have hj : j < t.length := by simpa using hi
      have hne : d.id ≠ (t.get ⟨j, hj⟩).id := by
        intro he
        exact h2.2 (he ▸ List.mem_map_of_mem _ (t.get_mem j hj))
      have hg : (d :: t).get ⟨j + 1, hi⟩ = t.get ⟨j, hj⟩ := rfl
      have hu : idsOf (d :: t) = d.id :: idsOf t := rfl
      rw [hg, hu]
      have hstep : rankIn (d.id :: idsOf t) (t.get ⟨j, hj⟩).id =
          (rankIn (idsOf t) (t.get ⟨j, hj⟩).id).map (fun r => r + 1) := by
        simp only [rankIn, if_neg hne]
      rw [hstep, ih h2.1 j hj]
      rfl

/-- Any duplicate-free document list is strictly ordered by its own
ranks. -/
theorem pairwise_rank_lt (ds : List Doc) (h : (idsOf ds).Nodup) :
    ds.Pairwise (fun x y => optLt (rankIn (idsOf ds) x.id) (rankIn (idsOf ds) y.id)) := by
  rw [List.pairwise_iff_get]
  intro i j hij
  have e1 := rankIn_idsOf_get ds h i.1 i.2
  have e2 := rankIn_idsOf_get ds h j.1 j.2
  simp only [Fin.eta] at e1 e2
  rw [e1, e2]
  simpa [optLt] using hij

/-- Inserting an element into a score-sorted, stably ordered list whose
members it `K`-precedes keeps both orders. -/
theorem orderedInsert_stable {α : Type} (f : α → ℚ) (K : α → α → Prop) (a : α)
    (s : List α) :
    s.Pairwise (fGe f) → s.Pairwise (stableOrd f K) → (∀ b ∈ s, K a b) →
      ((List.orderedInsert (fGe f) a s).Pairwise (fGe f) ∧
        (List.orderedInsert (fGe f) a s).Pairwise (stableOrd f K)) := by
  induction s with
  | nil =>
    intro _ _ _
    simp [List.orderedInsert]
  | cons b t ih =>
    intro hsort hpair hK
    have hsb := List.pairwise_cons.mp hsort
    have hpb := List.pairwise_cons.mp hpair
    rw [List.orderedInsert]
    by_cases hr : fGe f a b
    · rw [if_pos hr]
      have hle : ∀ c ∈ b :: t, f c ≤ f a := by
        intro c hc
        rcases List.mem_cons.mp hc with rfl | hc2
        · exact hr
        · exact le_trans (hsb.1 c hc2) hr
      refine ⟨List.pairwise_cons.mpr ⟨hle, hsort⟩, List.pairwise_cons.mpr ⟨?_, hpair⟩⟩
      intro c hc
      rcases lt_or_eq_of_le (hle c hc) with hlt | heq
      · exact Or.inl hlt
      · exact Or.inr ⟨heq.symm, hK c hc⟩
    · rw [if_neg hr]
      have hab : f a < f b := lt_of_not_le hr
      obtain ⟨ih1, ih2⟩ := ih hsb.2 hpb.2 (fun c hc => hK c (List.mem_cons_of_mem b hc))
      constructor
      · refine List.pairwise_cons.mpr ⟨?_, ih1⟩
        intro c hc
        rcases (List.mem_orderedInsert _).mp hc with rfl | hc2
        · exact le_of_lt hab
        · exact hsb.1 c hc2
      · refine List.pairwise_cons.mpr ⟨?_, ih2⟩
        intro c hc
        rcases (List.mem_orderedInsert _).mp hc with rfl | hc2
        · exact Or.inl hab
        · exact hpb.1 c hc2

/-- A stable descending sort of a `K`-ordered list is `stableOrd`-ordered
and score-sorted. -/
theorem insertionSort_stable {α : Type} (f : α → ℚ) (K : α → α → Prop) (l : List α)
    (h : l.Pairwise K) :
    ((List.insertionSort (fGe f) l).Pairwise (fGe f) ∧
      (List.insertionSort (fGe f) l).Pairwise (stableOrd f K)) := by
  induction l with
  | nil => simp [List.insertionSort]
  | cons a t ih =>
    have hc := List.pairwise_cons.mp h
    obtain ⟨ih1, ih2⟩ := ih hc.2
    rw [List.insertionSort]
    exact orderedInsert_stable f K a _ ih1 ih2
      (fun b hb => hc.1 b ((List.perm_insertionSort (fGe f) t).mem_iff.mp hb))

theorem vIds_eq (vs : List QdrantHit) :
    idsOf (vs.map (fun r => r.payload)) = vs.map (fun r => r.payload.id) := by
  simp [idsOf, List.map_map, Function.comp]

/-- For duplicate-free inputs, the `all_docs` values are strictly ordered
by the spec tie-break key (lexical rank, vector rank, id). -/
theorem allDocs_pairwise (ks : List Doc) (vs : List QdrantHit)
    (hk : (idsOf ks).Nodup) (hv : (vs.map (fun r => r.payload.id)).Nodup) :
    (allDocs ks vs).Pairwise (keyLt (idsOf ks) (vs.map (fun r => r.payload.id))) := by
  have hv2 : (idsOf (vs.map (fun r => r.payload))).Nodup := by
    rw [vIds_eq]
    exact hv
  rw [allDocs_eq ks vs hk, List.pairwise_append]
  refine ⟨?_, ?_, ?_⟩
  · exact (pairwise_rank_lt ks hk).imp (fun hxy => Or.inl hxy)
  · have hp2 := List.Pairwise.sublist
      (dedupKeys_sublist (vs.map (fun r => r.payload)) (idsOf ks))
      (pairwise_rank_lt (vs.map (fun r => r.payload)) hv2)
    refine List.Pairwise.imp_of_mem ?_ hp2
    intro x y hx hy hxy
    have hxm := mem_dedupKeys _ _ hx
    have hym := mem_dedupKeys _ _ hy
    have hxn : rankIn (idsOf ks) x.id = none := (rankIn_eq_none _ _).mpr hxm.2
    have hyn : rankIn (idsOf ks) y.id = none := (rankIn_eq_none _ _).mpr hym.2
    right
    refine ⟨by rw [hxn, hyn], Or.inl ?_⟩
    rw [← vIds_eq]
    exact hxy
  · intro x hx y hy
    have hym := mem_dedupKeys _ _ hy
    have hyn : rankIn (idsOf ks) y.id = none := (rankIn_eq_none _ _).mpr hym.2
    have hxm : x.id ∈ idsOf ks := List.mem_map_of_mem _ hx
    left
    rw [hyn]
    cases hr : rankIn (idsOf ks) x.id with
    | none => exact absurd ((rankIn_eq_none _ _).mp hr) (by simpa using hxm)
    | some r => exact trivial

/-- C5: the fused result list is sorted by descending fused score, score
ties are ordered by lexical rank (absent treated as plus infinity), then
vector rank (same), then document id ascending; and fusion of identical
inputs is deterministic (a pure function). -/
theorem C5_thm (ks : List Doc) (vs : List QdrantHit)
    (hk : (idsOf ks).Nodup) (hv : (vs.map (fun r => r.payload.id)).Nodup) :
    (combine_results ks vs).Pairwise (fGe (docScore ks vs)) ∧
      (combine_results ks vs).Pairwise
        (stableOrd (docScore ks vs) (keyLt (idsOf ks) (vs.map (fun r => r.payload.id)))) ∧
      combine_results ks vs = combine_results ks vs := by
  have hpair := allDocs_pairwise ks vs hk hv
  have hs := insertionSort_stable (docScore ks vs)
    (keyLt (idsOf ks) (vs.map (fun r => r.payload.id))) (allDocs ks vs) hpair
  exact ⟨hs.1, hs.2, rfl⟩

/-- C5 witness: the spec worked example, fused deterministically in the
order B, A, C. -/
theorem C5_witness :
    (combine_results [⟨1, 0⟩, ⟨2, 0⟩] [⟨⟨2, 0⟩⟩, ⟨⟨3, 0⟩⟩]).Pairwise
      (stableOrd (docScore [⟨1, 0⟩, ⟨2, 0⟩] [⟨⟨2, 0⟩⟩, ⟨⟨3, 0⟩⟩])
        (keyLt [1, 2] [2, 3])) :=
  (C5_thm [⟨1, 0⟩, ⟨2, 0⟩] [⟨⟨2, 0⟩⟩, ⟨⟨3, 0⟩⟩] (by decide) (by decide)).2.1

/-! ### Rewriter and orchestrator claims -/

/-- C8 counterexample: for a query whose pattern pass changes the text
and leaves more than 3 tokens, an empty model output makes the code fall
back to the original raw query (line 403 restores `original_query`), not
to the post-pattern text the claim names. -/
theorem C8_counterexample :
    patternPass "find me alpha beta gamma delta".toList = "alpha beta gamma delta".toList ∧
      process_natural_language_query (fun _ => .ok [])
          "find me alpha beta gamma delta".toList =
        "find me alpha beta gamma delta".toList ∧
      "find me alpha beta gamma delta".toList ≠ "alpha beta gamma delta".toList :=
  ⟨by decide, by decide, by decide⟩

/-- C8 (amended): the rewriter is a total function that never propagates
a model failure; the model pass runs only when the post-pattern token
count exceeds 3 (otherwise the result does not depend on the model at
all); and an empty or over-500-character model output — like a raising
model — is rejected by falling back to the *original raw* query (not the
post-pattern text), after which intent wrapping is still applied. -/
theorem C8_amended_thm :
    (∀ (q : List Char) (nlp nlp2 : List Char → Except String (List Char)),
      (pySplitL (patternPass q)).length ≤ 3 →
        process_natural_language_query nlp q = process_natural_language_query nlp2 q) ∧
      (∀ (q g : List Char), 3 < (pySplitL (patternPass q)).length →
        (g.isEmpty || 500 < g.length) = true →
          process_natural_language_query (fun _ => .ok g) q =
            wrapIntent (intentOf (patternPass q)) q) ∧
      (∀ (q : List Char) (e : String), 3 < (pySplitL (patternPass q)).length →
        process_natural_language_query (fun _ => .error e) q =
          wrapIntent (intentOf (patternPass q)) q) := by
  refine ⟨?_, ?_, ?_⟩
  · intro q n1 n2 hle
    unfold process_natural_language_query
    have hn : ¬ 3 < (pySplitL (patternPass q)).length := by omega
    simp [hn]
  · intro q g h hg
    unfold process_natural_language_query
    simp [h, hg]
  · intro q e h
    unfold process_natural_language_query
    simp [h]

/-- C8 witness: a short query ignores the model; the 4-token example
falls back to the (intent-wrapped) original on empty model output. -/
theorem C8_witness :
    process_natural_language_query (fun _ => .ok ['z']) "cat".toList =
        process_natural_language_query (fun _ => .error "boom") "cat".toList ∧
      process_natural_language_query (fun _ => .ok [])
          "find me alpha beta gamma delta".toList =
        wrapIntent (intentOf (patternPass "find me alpha beta gamma delta".toList))
          "find me alpha beta gamma delta".toList :=
  ⟨C8_amended_thm.1 "cat".toList (fun _ => .ok ['z']) (fun _ => .error "boom") (by decide),
    C8_amended_thm.2.1 "find me alpha beta gamma delta".toList [] (by decide) (by decide)⟩

/-- Success of an `Except` bind decomposes into successes. -/
theorem except_bind_ok {α β : Type} {x : Except String α} {f : α → Except String β}
    {b : β} (h : (x >>= f) = .ok b) : ∃ a, x = .ok a ∧ f a = .ok b := by
  cases x with
  | ok a => exact ⟨a, rfl, h⟩
  | error e => exact Except.noConfusion h

/-- C1 counterexample: lexical backend healthy, vector backend failing —
the whole call fails instead of returning lexical-only fused hits (there
is no handler around lines 322-328). -/
theorem C1_counterexample :
    hybrid_search "hello" 10 none false (fun _ => .error "") (fun _ => .ok [⟨1, 0⟩])
        (fun _ => .ok ()) (.error "qdrant down") (.ok ()) =
      .error "qdrant down" := rfl

/-- C1 (amended): there is no degraded mode: for a query that parses,
a failure of the lexical backend, of the embedder, or of the vector
backend each propagates as the error of the whole call. -/
theorem C1_amended_thm (q pq : String) (b : Bool) (limit : Nat) (uid : Option Int)
    (nlp : List Char → Except String (List Char))
    (meili : String → Except String (List Doc)) (embed : String → Except String Unit)
    (qdrant : Except String (List QdrantHit)) (hist : Except String Unit)
    (hparse : parse q = .ok (pq, b)) :
    (∀ e, meili pq = .error e →
      hybrid_search q limit uid false nlp meili embed qdrant hist = .error e) ∧
      (∀ e hs, meili pq = .ok hs → embed pq = .error e →
        hybrid_search q limit uid false nlp meili embed qdrant hist = .error e) ∧
      (∀ e hs, meili pq = .ok hs → embed pq = .ok () → qdrant = .error e →
        hybrid_search q limit uid false nlp meili embed qdrant hist = .error e) := by
  refine ⟨?_, ?_, ?_⟩
  · intro e hm
    simp [hybrid_search, hparse, hm, Bind.bind, Except.bind]
  · intro e hs hm he
    simp [hybrid_search, hparse, hm, he, Bind.bind, Except.bind]
  · intro e hs hm he hq
    simp [hybrid_search, hparse, hm, he, hq, Bind.bind, Except.bind]

/-- C1 witness: a lexical failure aborts the concrete call. -/
theorem C1_witness :
    hybrid_search "hello" 10 none false (fun _ => .error "") (fun _ => .error "meili down")
        (fun _ => .ok ()) (.ok []) (.ok ()) =
      .error "meili down" :=
  (C1_amended_thm "hello" "hello" false 10 none (fun _ => .error "")
    (fun _ => .error "meili down") (fun _ => .ok ()) (.ok []) (.ok ()) rfl).1 "meili down" rfl

/-- C9 counterexample: with a user present and every backend healthy, a
failing history write aborts the whole search (lines 332-342 have no
handler) instead of still returning the result. -/
theorem C9_counterexample :
    hybrid_search "hello" 10 (some 1) false (fun _ => .error "") (fun _ => .ok [⟨1, 0⟩])
        (fun _ => .ok ()) (.ok [⟨⟨2, 0⟩⟩]) (.error "history write failed") =
      .error "history write failed" := rfl

/-- C9 (amended): the history write is attempted only when `user_id` is
truthy — with no user the call result does not depend on the history
effect at all — but a failing history write is surfaced: such a call can
never return a result. -/
theorem C9_amended_thm (q : String) (limit : Nat) (use_nlp : Bool)
    (nlp : List Char → Except String (List Char))
    (meili : String → Except String (List Doc)) (embed : String → Except String Unit)
    (qdrant : Except String (List QdrantHit)) :
    (∀ h1 h2, hybrid_search q limit none use_nlp nlp meili embed qdrant h1 =
        hybrid_search q limit none use_nlp nlp meili embed qdrant h2) ∧
      (∀ (u : Int) (e : String) (resp : SearchResponse), u ≠ 0 →
        hybrid_search q limit (some u) use_nlp nlp meili embed qdrant (.error e) ≠
          .ok resp) := by
  constructor
  · intro h1 h2
    simp [hybrid_search, userTruthy]
  · intro u e resp hu hok
    unfold hybrid_search at hok
    obtain ⟨q2, _, hok⟩ := except_bind_ok hok
    obtain ⟨m, _, hok⟩ := except_bind_ok hok
    obtain ⟨_, _, hok⟩ := except_bind_ok hok
    obtain ⟨qd, _, hok⟩ := except_bind_ok hok
    obtain ⟨u2, hu2, _⟩ := except_bind_ok hok
    rw [if_pos (show userTruthy (some u) = true by simp [userTruthy, hu])] at hu2
    exact Except.noConfusion hu2

/-- C9 witness: without a user the history effect is irrelevant; with a
user a failing write prevents any result. -/
theorem C9_witness :
    hybrid_search "hello" 10 none false (fun _ => .error "") (fun _ => .ok [⟨1, 0⟩])
        (fun _ => .ok ()) (.ok []) (.ok ()) =
      hybrid_search "hello" 10 none false (fun _ => .error "") (fun _ => .ok [⟨1, 0⟩])
        (fun _ => .ok ()) (.ok []) (.error "db down") ∧
      hybrid_search "hello" 10 (some 1) false (fun _ => .error "") (fun _ => .ok [⟨1, 0⟩])
        (fun _ => .ok ()) (.ok []) (.error "db down") ≠ .ok ⟨[⟨1, 0⟩], false⟩ :=
  ⟨(C9_amended_thm "hello" 10 false (fun _ => .error "") (fun _ => .ok [⟨1, 0⟩])
      (fun _ => .ok ()) (.ok [])).1 (.ok ()) (.error "db down"),
    (C9_amended_thm "hello" 10 false (fun _ => .error "") (fun _ => .ok [⟨1, 0⟩])
      (fun _ => .ok ()) (.ok [])).2 1 "db down" ⟨[⟨1, 0⟩], false⟩ (by decide)⟩

/-- C4: whenever `hybrid_search` returns a response at a positive limit,
the returned fused hit list has pairwise-distinct document ids and at
most `limit` entries. -/
theorem C4_thm (q : String) (limit : Nat) (uid : Option Int) (use_nlp : Bool)
    (nlp : List Char → Except String (List Char))
    (meili : String → Except String (List Doc)) (embed : String → Except String Unit)
    (qdrant : Except String (List QdrantHit)) (hist : Except String Unit)
    (resp : SearchResponse) (hlim : 0 < limit)
    (hok : hybrid_search q limit uid use_nlp nlp meili embed qdrant hist = .ok resp) :
    (idsOf resp.hits).Nodup ∧ resp.hits.length ≤ limit := by
  unfold hybrid_search at hok
  obtain ⟨q2, _, hok⟩ := except_bind_ok hok
  obtain ⟨m, _, hok⟩ := except_bind_ok hok
  obtain ⟨_, _, hok⟩ := except_bind_ok hok
  obtain ⟨qd, _, hok⟩ := except_bind_ok hok
  obtain ⟨u2, _, hok⟩ := except_bind_ok hok
  injection hok with hinj
  subst hinj
  constructor
  · show (idsOf ((combine_results m qd).take limit)).Nodup
    have hnd := combine_results_ids_nodup m qd
    have hsub : ((combine_results m qd).take limit).Sublist (combine_results m qd) :=
      List.take_sublist limit _
    have hsub2 : (idsOf ((combine_results m qd).take limit)).Sublist
        (idsOf (combine_results m qd)) := by
      unfold idsOf
      exact hsub.map _
    exact hsub2.nodup hnd
  · show ((combine_results m qd).take limit).length ≤ limit
    rw [List.length_take]
    exact min_le_left _ _

/-- C4 witness: a concrete successful call returns one hit under limit
10 with distinct ids. -/
theorem C4_witness :
    (idsOf (SearchResponse.mk [⟨1, 0⟩] false).hits).Nodup ∧
      (SearchResponse.mk [⟨1, 0⟩] false).hits.length ≤ 10 :=
  C4_thm "hello" 10 none false (fun _ => .error "") (fun _ => .ok [⟨1, 0⟩])
    (fun _ => .ok ()) (.ok []) (.ok ()) ⟨[⟨1, 0⟩], false⟩ (by decide) rfl

/-! ### The popularity counter is never written -/

/-- `_generate_suggestions` leaves `popular_terms` untouched on every
path. -/
theorem gen_preserves_pop (st : SuggestState) (q : String) (uid : Option Int)
    (mt ht : Except String (List String)) :
    (generate_suggestions st q uid mt ht).2.popular_terms = st.popular_terms := by
  unfold generate_suggestions
  by_cases h : q.length < 2
  · rw [if_pos h]
  · rw [if_neg h]
    cases hl : (st.suggestion_cache).lookup (cacheKey uid q) with
    | some v => rfl
    | none =>
      cases mt with
      | error e => rfl
      | ok titles =>
        cases hht : (match uid with
          | some u => if u != 0 then ht else Except.ok []
          | none => Except.ok []) with
        | error e => rfl
        | ok hist => rfl

/-- Elements produced by the candidate folds satisfy the entry check. -/
theorem foldl_setAdd_mem (P : String → Bool) (l : List String) :
    ∀ (acc : List String), (∀ x ∈ acc, P x = true) →
      ∀ x ∈ l.foldl (fun s t => if P t then setAdd s t else s) acc, P x = true := by
  induction l with
  | nil => intro acc hacc x hx; exact hacc x hx
  | cons t ts ih =>
    intro acc hacc x hx
    rw [List.foldl_cons] at hx
    by_cases hp : P t = true
    · rw [if_pos hp] at hx
      refine ih (setAdd acc t) ?_ x hx
      intro y hy
      unfold setAdd at hy
      by_cases hm : t ∈ acc
      · rw [if_pos hm] at hy
        exact hacc y hy
      · rw [if_neg hm] at hy
        rcases List.mem_append.mp hy with hy1 | hy2
        · exact hacc y hy1
        · rw [List.mem_singleton.mp hy2]
          exact hp
    · rw [if_neg hp] at hx
      exact ih acc hacc x hx

/-- Every suggestion candidate is a (case-insensitive) prefix extension
of the query. -/
theorem mem_suggCandidates {mt ht : List String} {q s : String}
    (hs : s ∈ suggCandidates mt ht q) :
    listHasPfx (lowerL s.toList) (lowerL q.toList) = true := by
  unfold suggCandidates at hs
  refine foldl_setAdd_mem (fun t => listHasPfx (lowerL t.toList) (lowerL q.toList)) ht _ ?_ s hs
  intro x hx
  exact foldl_setAdd_mem (fun t => listHasPfx (lowerL t.toList) (lowerL q.toList)) mt []
    (by intro y hy; cases hy) x hx

/-- With an empty popularity dict, the score of every candidate is
exactly the base plus the length bonus. -/
theorem mem_rankScored_empty {mt ht : List String} {q : String} {p : ℚ × String}
    (hp : p ∈ rankScored [] mt ht q) :
    p.1 = 2 + ((max 0 (10 - (p.2.length : Int)) : Int) : ℚ) * (1 / 20) := by
  unfold rankScored at hp
  obtain ⟨s, hs, rfl⟩ := List.mem_map.mp hp
  have hpfx := mem_suggCandidates hs
  show suggScore [] q s = 2 + ((max 0 (10 - (s.length : Int)) : Int) : ℚ) * (1 / 20)
  unfold suggScore
  rw [if_pos hpfx]
  have hpop : popGet [] (String.mk (lowerL s.toList)) = 0 := rfl
  rw [hpop]
  push_cast
  ring

/-- C10: no operation of the module writes `popular_terms` — every
reachable suggestion state keeps it empty as initialized — so the
popularity term of every candidate score is 0 and each scored
candidate's score is exactly `2 + 0.05 * max 0 (10 - length)`. -/
theorem C10_thm (st : SuggestState) (hr : Reachable st) :
    st.popular_terms = [] ∧
      (∀ (mt ht : List String) (q : String) (p : ℚ × String),
        p ∈ rankScored st.popular_terms mt ht q →
        p.1 = 2 + ((max 0 (10 - (p.2.length : Int)) : Int) : ℚ) * (1 / 20)) := by
  have hpop : st.popular_terms = [] := by
    induction hr with
    | init => rfl
    | step st q uid mt ht h ih => rw [gen_preserves_pop, ih]
  refine ⟨hpop, ?_⟩
  intro mt ht q p hp
  rw [hpop] at hp
  exact mem_rankScored_empty hp

/-- C10 witness: from the initial state, the single candidate `cat` for
query `ca` is scored by the base-plus-length formula alone. -/
theorem C10_witness :
    initState.popular_terms = [] ∧
      (suggScore [] "ca" "cat", "cat").1 =
        2 + ((max 0 (10 - (("cat").length : Int)) : Int) : ℚ) * (1 / 20) := by
  have h := C10_thm initState Reachable.init
  refine ⟨h.1, ?_⟩
  have hm : (suggScore [] "ca" "cat", "cat") ∈ rankScored [] ["cat"] [] "ca" := by
    have he : rankScored [] ["cat"] [] "ca" = [(suggScore [] "ca" "cat", "cat")] := rfl
    rw [he]
    exact List.mem_singleton.mpr rfl
  exact h.2 ["cat"] [] "ca" (suggScore [] "ca" "cat", "cat") hm

/-- Opening-quote step of the tokenizer, from the initial state. -/
theorem tokStep_openQuote :
    tokStep { tokens := [], current := [], inQuotes := false } '"' =
      { tokens := [], current := [], inQuotes := true } := rfl

/-- C3 counterexample: the query `brand` contains no whitespace-delimited
`AND`/`OR`/`NOT` token, yet `parse` reports `is_advanced = true`, because
the line-43 operator test is a substring test and `BRAND` contains `AND`. -/
theorem C3_counterexample :
    (pySplitL "brand".toList).all (fun t => !(isOpTok t)) = true ∧
      parse "brand" = .ok ("brand", true) :=
  ⟨by decide, rfl⟩

/-- C3 (amended): the pass-through is decided by a *substring* test on the
upper-cased raw query: whenever none of `AND`, `OR`, `NOT` occurs as a
substring of the upper-cased query, `parse` returns `is_advanced = false`
and the raw query unchanged. -/
theorem C3_amended_thm (q : String)
    (h : opNames.any (fun op => listHasSub (upperL q.toList) op) = false) :
    parse q = .ok (q, false) := by
  simp only [parse, parseL, h]
  rfl

/-- C3 witness: a concrete plain query passes through unchanged. -/
theorem C3_witness :
    (opNames.any (fun op => listHasSub (upperL "hello".toList) op) = false) ∧
      parse "hello" = .ok ("hello", false) :=
  ⟨by decide, C3_amended_thm "hello" (by decide)⟩

/-- C6 counterexample: `AND foo` begins with a bare operator token, but
`parse` succeeds instead of failing: at `i = 0` the Python fallback
`tokens[i-1]` is negative indexing and silently grabs the *last* token as
the left operand. -/
theorem C6_counterexample :
    (pySplitL "AND foo".toList).head? = some ['A', 'N', 'D'] ∧
      isOpTok ['A', 'N', 'D'] = true ∧
      parse "AND foo" = .ok ("(foo AND foo)", true) :=
  ⟨by decide, by decide, rfl⟩

/-- C6 (amended): `parse` fails only when the scan reaches an operator
token with no following token, and then with the wrapped IndexError text
(no token index is named): `AND` alone and `foo AND` (and `foo NOT`) all
fail that way, while a bare operator at the start (`AND foo`) and two
consecutive operators (`foo AND AND bar`, where the second `AND` is
consumed as an operand) parse without error. -/
theorem C6_amended_thm :
    parse "AND" = .error idxErr ∧
      parse "foo AND" = .error idxErr ∧
      parse "foo NOT" = .error idxErr ∧
      parse "AND foo" = .ok ("(foo AND foo)", true) ∧
      parse "foo AND AND bar" = .ok ("(foo AND AND) bar", true) :=
  ⟨rfl, rfl, rfl, rfl, rfl⟩

/-- C7 counterexample: a query with an odd number of double-quote
characters is not rejected: `parse` returns a parsed query. -/
theorem C7_counterexample :
    countQuote "x AND \"y z" = 1 ∧
      parse "x AND \"y z" = .ok ("(x AND y z)", true) :=
  ⟨rfl, rfl⟩

/-- C7 (amended): a balanced double-quoted span does become a single
token with the quote characters stripped and interior spaces kept, but
unbalanced quotes are *not* detected: the open span runs to the end of
the string, becomes an ordinary final token, and `parse` succeeds. -/
theorem C7_amended_thm :
    (∀ s : List Char, '"' ∉ s → tokenizeL (['"'] ++ s ++ ['"']) = [s]) ∧
      parse "x AND \"y z" = .ok ("(x AND y z)", true) := by
  constructor
  · intro s hs
    have step1 : tokenizeL (['"'] ++ s ++ ['"']) =
        (if ((s ++ ['"']).foldl tokStep
              { tokens := [], current := [], inQuotes := true }).current.isEmpty then
          ((s ++ ['"']).foldl tokStep { tokens := [], current := [], inQuotes := true }).tokens
        else
          ((s ++ ['"']).foldl tokStep { tokens := [], current := [], inQuotes := true }).tokens ++
            [((s ++ ['"']).foldl tokStep
                { tokens := [], current := [], inQuotes := true }).current]) := rfl
    rw [step1, List.foldl_append, foldl_tokStep_inQuotes s hs,
      show List.foldl tokStep { tokens := [], current := [] ++ s, inQuotes := true } ['"'] =
        { tokens := [] ++ [[] ++ s], current := [], inQuotes := false } from rfl]
    simp
  · rfl

/-- C7 witness: the quoted span `"y z"` tokenizes to the single token
`y z`. -/
theorem C7_witness :
    ('"' ∉ ['y', ' ', 'z']) ∧
      tokenizeL (['"'] ++ ['y', ' ', 'z'] ++ ['"']) = [['y', ' ', 'z']] :=
  ⟨by decide, C7_amended_thm.1 ['y', ' ', 'z'] (by decide)⟩

end SearchSpec
